import Mathlib

set_option linter.all false

/-!
Shallow embedding of the traefik plugin `multi-http-provider`.

The repository contains two parallel implementations of the same
poll-transform-merge-emit pipeline:

* `src/provider.go` (the entry-point filtering variant, called Policy A in
  the specification), and
* `src/unnamed/part_000` (the middleware namespace rewriting variant,
  called Policy B).

Go maps are embedded as association lists `List (String × α)`; a Go map is
keyed uniquely, which corresponds to the key list of the association list
being duplicate-free (`nodupKeys` below).  Map iteration order is
unspecified in Go, so every statement that depends on an iteration order is
quantified over all list orders.  `time.Duration` is an `int64` number of
nanoseconds and is embedded as `Int`.
-/

/-- A dynamic HTTP router, restricted to the fields this plugin reads:
`EntryPoints`, `Service` and `Middlewares` (see the traefik genconf
`dynamic.Router` type as used in `src/provider.go`). -/
structure Router where
  entryPoints : List String
  service : String
  middlewares : List String
deriving Repr, DecidableEq

/-- A decoded dynamic configuration fragment: the `HTTP` section with its
three named collections.  Service and middleware bodies are opaque to the
plugin (it only moves them around), so they are embedded as `String`
payloads. -/
structure Configuration where
  routers : List (String × Router)
  services : List (String × String)
  middlewares : List (String × String)
deriving Repr, DecidableEq

/-- The empty configuration: all three collections present but empty,
matching the freshly allocated maps in `mergeConfig` in the source. -/
def Configuration.empty : Configuration := ⟨[], [], []⟩

/-- Lookup in an association list, the embedding of a Go map read
`v, ok := m[k]`. -/
def findKey : List (String × α) → String → Option α
  | [], _ => none
  | kv :: rest, n => if kv.1 = n then some kv.2 else findKey rest n

/-- Key deletion, the embedding of Go `delete(m, k)`. -/
def delKey : List (String × α) → String → List (String × α)
  | [], _ => []
  | kv :: rest, n => if kv.1 = n then delKey rest n else kv :: delKey rest n

/-- The key list of an association list. -/
def keysOf (l : List (String × α)) : List String := l.map Prod.fst

/-- An association list embeds a Go map faithfully when its keys are
duplicate-free. -/
def nodupKeys (l : List (String × α)) : Prop := (keysOf l).Nodup

instance (l : List (String × α)) : Decidable (nodupKeys l) := by
  unfold nodupKeys
  infer_instance

instance {ε : Type u} {α : Type v} [DecidableEq ε] [DecidableEq α] : DecidableEq (Except ε α)
  | .ok x, .ok y =>
      if h : x = y then isTrue (congrArg Except.ok h)
      else isFalse (fun hh => h (Except.ok.inj hh))
  | .error x, .error y =>
      if h : x = y then isTrue (congrArg Except.error h)
      else isFalse (fun hh => h (Except.error.inj hh))
  | .ok x, .error y => isFalse (fun hh => Except.noConfusion hh)
  | .error x, .ok y => isFalse (fun hh => Except.noConfusion hh)

/-- Go map assignment `m[k] = b`: overwrite the binding if the key is
present, otherwise add it. -/
def setAssoc : List (String × Bool) → String → Bool → List (String × Bool)
  | [], k, b => [(k, b)]
  | kv :: rest, k, b => if kv.1 = k then (kv.1, b) :: rest else kv :: setAssoc rest k b

/-- The guarded insertion `if _, ok := m[k]; !ok { m[k] = true }` from the
middleware-marking loop in `src/provider.go` lines 158-162. -/
def markTrueIfAbsent (l : List (String × Bool)) (k : String) : List (String × Bool) :=
  if (findKey l k).isSome then l else l ++ [(k, true)]

/-- The guarded insertion `if _, ok := acc[name]; !ok { acc[name] = m }`
used for every collection in `mergeConfig`. -/
def insertAbsent (acc : List (String × α)) (kv : String × α) : List (String × α) :=
  if (findKey acc kv.1).isSome then acc else acc ++ [kv]

/-! ## Policy A: entry-point filtering (`src/provider.go` lines 149-180) -/

/-- The inner loop `for _, e := range v.EntryPoints { if _, ok :=
p.entrypoints[e]; ok { entrypoints = append(entrypoints, e) } }`:
the declared entry points that are locally recognized, in declaration
order. -/
def interEps (eps : List String) (r : Router) : List String :=
  r.entryPoints.filter (fun e => eps.contains e)

/-- The mutable working set of the router loop in `loadConfiguration`:
the routers with their entry-point lists already replaced, the
`toDelete` map from router name to referenced service, and the
`toDeleteMiddlewares` map from middleware name to its deletion mark. -/
structure ScanState where
  routers : List (String × Router)
  toDelete : List (String × String)
  toDeleteMw : List (String × Bool)
deriving Repr, DecidableEq

/-- One iteration of `for k, v := range config.HTTP.Routers` in
`src/provider.go` lines 151-171: filter the entry points, mark every
referenced middleware for deletion if unseen, then either record the
router and its service in `toDelete` (empty intersection) or clear the
deletion mark of its middlewares, and store the filtered entry-point
list on the router. -/
def processRouter (eps : List String) (st : ScanState) (kv : String × Router) : ScanState :=
  let ev := interEps eps kv.2
  let mw1 := kv.2.middlewares.foldl (fun acc m => markTrueIfAbsent acc m) st.toDeleteMw
  let mw2 := if ev.isEmpty then mw1
             else kv.2.middlewares.foldl (fun acc m => setAssoc acc m false) mw1
  { routers := st.routers ++ [(kv.1, { kv.2 with entryPoints := ev })]
    toDelete := if ev.isEmpty then st.toDelete ++ [(kv.1, kv.2.service)] else st.toDelete
    toDeleteMw := mw2 }

/-- Policy A applied to one fragment (`src/provider.go` lines 149-180):
scan all routers, then delete the marked routers, their services, and
every middleware whose deletion mark remained `true`. -/
def transformA (eps : List String) (cfg : Configuration) : Configuration :=
  let st := cfg.routers.foldl (processRouter eps) ⟨[], [], []⟩
  { routers := st.toDelete.foldl (fun a kv => delKey a kv.1) st.routers
    services := st.toDelete.foldl (fun a kv => delKey a kv.2) cfg.services
    middlewares := st.toDeleteMw.foldl (fun a kv => if kv.2 then delKey a kv.1 else a) cfg.middlewares }

/-! ## Policy B: middleware namespace rewriting (`src/unnamed/part_000`
lines 138-144) -/

/-- Replacement of the first occurrence of a (non-empty) pattern, the
embedding of Go `strings.Replace(s, pat, rep, 1)` on character lists. -/
def replaceFirstL (pat rep : List Char) : List Char → List Char
  | [] => []
  | c :: rest =>
      if pat.isPrefixOf (c :: rest) then rep ++ (c :: rest).drop pat.length
      else c :: replaceFirstL pat rep rest

/-- The rewrite `strings.Replace(m, "@http", "@plugin-multi-http-provider", 1)`
from `src/unnamed/part_000` line 141. -/
def rewriteMw (m : String) : String :=
  String.mk (replaceFirstL ( "@http").data ( "@plugin-multi-http-provider").data m.data)

/-- Policy B applied to one fragment: rewrite every middleware reference of
every router; nothing is deleted and entry points are untouched. -/
def transformB (cfg : Configuration) : Configuration :=
  { cfg with routers := cfg.routers.map (fun kv => (kv.1, { kv.2 with middlewares := kv.2.middlewares.map rewriteMw })) }

/-! ## Merge (`mergeConfig`, identical in both source files) -/

/-- Folding one fragment into the accumulated configuration: each of the
three collections is inserted name by name, keeping an already present
binding (`if _, ok := newConfig.HTTP.X[name]; !ok`). -/
def mergeFragment (acc c : Configuration) : Configuration :=
  { middlewares := c.middlewares.foldl insertAbsent acc.middlewares
    services := c.services.foldl insertAbsent acc.services
    routers := c.routers.foldl insertAbsent acc.routers }

/-- `mergeConfig`: fold all fragments, in iteration order, into a fresh
empty configuration.  The Go code iterates over a map of fragments keyed
by endpoint name; the embedding takes the fragments as a list in that
iteration order. -/
def mergeConfig (cs : List Configuration) : Configuration :=
  cs.foldl mergeFragment Configuration.empty

/-! ## One poll cycle (`loadConfiguration` body of one tick) -/

/-- A Go runtime panic relevant to this code: calling a nil function
value (`Stop` before `Provide`), or dereferencing a nil pointer (the
`config.HTTP.Routers` access when the decoded document has no HTTP
section). -/
inductive GoPanic where
  | nilFunctionCall : GoPanic
  | nilPointerDereference : GoPanic
deriving Repr, DecidableEq

/-- Outcome of reading and decoding the response body: `io.ReadAll` may
fail, `json.Unmarshal` may fail, or the body decodes into a
`dynamic.Configuration` document.  The `HTTP` field of that document is
a pointer, so a decode success carries an `Option Configuration`:
bodies such as an empty JSON object, `null`, or an object without an
http key decode successfully into a document whose HTTP section is nil
(`none`). -/
inductive Body where
  | unreadable : Body
  | undecodable : Body
  | decodable : Option Configuration → Body
deriving Repr, DecidableEq

/-- Outcome of `http.Get` for one endpoint: either a transport error
(`err != nil`) or a response carrying a status code and a body.  The
status code is part of the model because every HTTP response carries
one; whether the code consults it is exactly what is at issue. -/
inductive FetchResult where
  | transportError : FetchResult
  | response : Nat → Body → FetchResult
deriving Repr, DecidableEq

/-- The per-endpoint fetch path of `loadConfiguration`
(`src/provider.go` lines 130-146): skip (`continue`) on transport
error, on read error, and on decode error; on decode success hand the
decoded document's HTTP section — possibly nil — to the transform
loop.  The source never reads `resp.StatusCode`, so the status
argument is unused here, mirroring the code. -/
def readAndDecode : FetchResult → Option (Option Configuration)
  | .transportError => none
  | .response _ .unreadable => none
  | .response _ .undecodable => none
  | .response _ (.decodable http) => some http

/-- The fragment-collection loop of one tick: each endpoint's fetch
either contributes its transformed fragment, is skipped (`continue`),
or — when the decoded document's HTTP section is nil — panics at the
`config.HTTP.Routers` access (`src/provider.go` line 151,
`src/unnamed/part_000` line 138), aborting the whole cycle: the only
recover is the goroutine wrapper in `Provide`, which logs the panic
and lets the polling loop die, so nothing is emitted. -/
def collectConfigs (transform : Configuration → Configuration) :
    List (String × FetchResult) → List Configuration → Except GoPanic (List Configuration)
  | [], acc => .ok acc
  | nr :: rest, acc =>
      match readAndDecode nr.2 with
      | none => collectConfigs transform rest acc
      | some none => .error .nilPointerDereference
      | some (some cfg) => collectConfigs transform rest (acc ++ [transform cfg])

/-- One full tick of the Policy A variant (`src/provider.go` lines
127-184): collect the transformed fragments of the successful endpoints
and merge them; the merged configuration is the payload emitted on the
channel — unless the cycle panics, in which case nothing is emitted. -/
def cycleA (eps : List String) (fetches : List (String × FetchResult)) :
    Except GoPanic Configuration :=
  match collectConfigs (transformA eps) fetches [] with
  | .error p => .error p
  | .ok cs => .ok (mergeConfig cs)

/-- One full tick of the Policy B variant (`src/unnamed/part_000` lines
116-147). -/
def cycleB (fetches : List (String × FetchResult)) : Except GoPanic Configuration :=
  match collectConfigs transformB fetches [] with
  | .error p => .error p
  | .ok cs => .ok (mergeConfig cs)

/-! ## Provider lifecycle -/

/-- The provider of `src/provider.go` (Policy A variant): poll interval and
timeout in nanoseconds, the endpoint map, the recognized entry-point set
(a `map[string]bool`, embedded by its key list), and the `cancel` field,
which is nil (`none`) until `Provide` stores a cancel function in it. -/
structure ProviderA where
  pollInterval : Int
  pollTimeout : Int
  endpoints : List (String × String)
  entrypoints : List String
  cancel : Option Unit
deriving Repr, DecidableEq

/-- The provider of `src/unnamed/part_000` (Policy B variant): same fields
except that no entry-point set exists. -/
structure ProviderB where
  pollInterval : Int
  pollTimeout : Int
  endpoints : List (String × String)
  cancel : Option Unit
deriving Repr, DecidableEq

/-- `Init` of the Policy A variant (`src/provider.go` lines 87-101). -/
def ProviderA.Init (p : ProviderA) : Except String Unit :=
  if p.pollInterval ≤ 0 then .error "poll interval must be greater than 0"
  else if p.pollTimeout ≤ 0 then .error "poll timeout must be greater than 0"
  else if p.endpoints.length ≤ 0 then .error "must provide at least 1 endpoint"
  else if p.entrypoints.length ≤ 0 then .error "must specify at least one entrypoint"
  else .ok ()

/-- `Init` of the Policy B variant (`src/unnamed/part_000` lines 79-90):
identical except that no entry-point check exists. -/
def ProviderB.Init (p : ProviderB) : Except String Unit :=
  if p.pollInterval ≤ 0 then .error "poll interval must be greater than 0"
  else if p.pollTimeout ≤ 0 then .error "poll timeout must be greater than 0"
  else if p.endpoints.length ≤ 0 then .error "must provide at least 1 endpoint"
  else .ok ()

/-- The effect of `Provide` on the provider state: it stores a cancel
function in the `cancel` field (and spawns the polling goroutine, which
has no effect on the struct). -/
def ProviderA.provide (p : ProviderA) : ProviderA := { p with cancel := some () }

/-- `Stop` (`src/provider.go` lines 230-233): it calls `p.cancel()`
unconditionally.  In Go, calling a nil function value panics; calling a
`context.CancelFunc` any number of times is safe and leaves the struct
unchanged.  The result carries the unchanged provider state. -/
def ProviderA.Stop (p : ProviderA) : Except GoPanic (Unit × ProviderA) :=
  match p.cancel with
  | none => .error .nilFunctionCall
  | some _ => .ok ((), p)

/-! ## Emission payload serialization (`ConfigMarshaler.MarshalJSON`) -/

/-- Concatenate with commas, as in a JSON object or array body. -/
def joinComma : List String → String
  | [] => ""
  | [s] => s
  | s :: rest => s ++ "," ++ joinComma rest

/-- A JSON string literal (the names this plugin handles contain no
characters needing escapes). -/
def quoteStr (s : String) : String := "\"" ++ s ++ "\""

/-- A JSON object from already-encoded fields. -/
def encodeObj (fields : List String) : String := "\x7b" ++ joinComma fields ++ "\x7d"

/-- A JSON array from already-encoded items. -/
def encodeArr (items : List String) : String := "[" ++ joinComma items ++ "]"

/-- A JSON object field. -/
def encodeField (k v : String) : String := quoteStr k ++ ":" ++ v

/-- JSON encoding of a router. -/
def encodeRouter (r : Router) : String :=
  encodeObj [ encodeField "entryPoints" (encodeArr (r.entryPoints.map quoteStr)),
    encodeField "service" (quoteStr r.service),
    encodeField "middlewares" (encodeArr (r.middlewares.map quoteStr))]

/-- JSON encoding of the configuration, the embedding of
`json.Marshal(c.config)`: total, because marshalling the plain
structs/maps/slices of a dynamic configuration cannot fail in Go. -/
def encodeConfiguration (c : Configuration) : String :=
  encodeObj [ encodeField "http" (encodeObj
    [ encodeField "routers" (encodeObj (c.routers.map (fun kv => encodeField kv.1 (encodeRouter kv.2)))),
      encodeField "services" (encodeObj (c.services.map (fun kv => encodeField kv.1 kv.2))),
      encodeField "middlewares" (encodeObj (c.middlewares.map (fun kv => encodeField kv.1 kv.2)))])]

/-- `ConfigMarshaler.MarshalJSON` (`src/provider.go` lines 222-227): if the
configuration reference is non-nil, marshal it; otherwise return an
error and no bytes. -/
def ConfigMarshaler.MarshalJSON (config : Option Configuration) : Except String String :=
  match config with
  | some c => .ok (encodeConfiguration c)
  | none => .error "unable to serialize configuration"

/-! ## Specification-side characterizations -/

/-- Modelled from the spec: first-writer-wins — the entity from the
earliest fragment in iteration order that defines the name.  This is the
refinement target that `mergeConfig` is compared against. -/
def firstWriterDef (f : Configuration → List (String × α)) : List Configuration → String → Option α
  | [], _ => none
  | c :: rest, n =>
      match findKey (f c) n with
      | some v => some v
      | none => firstWriterDef f rest n

/-- Internal resolvability of a fragment: every router's service reference
and every middleware reference names an entity present in the same
fragment. -/
def Resolvable (c : Configuration) : Prop :=
  ∀ kv ∈ c.routers, (findKey c.services kv.2.service).isSome ∧
    ∀ m ∈ kv.2.middlewares, (findKey c.middlewares m).isSome

instance (c : Configuration) : Decidable (Resolvable c) := by
  unfold Resolvable
  infer_instance

/-- Boolean form of: some router of the list references middleware `n`. -/
def refB (rs : List (String × Router)) (n : String) : Bool :=
  rs.any (fun kv => decide (n ∈ kv.2.middlewares))

/-- Boolean form of: some router of the list survives entry-point
filtering against `eps` and references middleware `n`. -/
def survB (eps : List String) (rs : List (String × Router)) (n : String) : Bool :=
  rs.any (fun kv => decide (interEps eps kv.2 ≠ []) && decide (n ∈ kv.2.middlewares))

/-- The deletion mark a middleware ends up with, as a function of its mark
before the scan, of whether any scanned router references it, and of
whether any surviving scanned router references it. -/
def mwVerdict (l0 : Option Bool) (anyR survR : Bool) : Option Bool :=
  if l0 = some false ∨ survR then some false
  else if l0.isSome ∨ anyR then some true
  else none

/-! ## Concrete sample inputs -/

/-- A fragment with one router bound to a recognized entry point and one
router bound only to an unrecognized one, sharing a middleware. -/
def cfgA : Configuration :=
  ⟨[( "r1", ⟨[ "web", "websecure" ], "s1", [ "m-shared", "m-keep" ]⟩),
    ( "r2", ⟨[ "internal" ], "s2", [ "m-shared", "m-dead" ]⟩)],
   [( "s1", "p1"), ( "s2", "p2")],
   [( "m-shared", "q1"), ( "m-keep", "q2"), ( "m-dead", "q3")]⟩

/-- A fragment whose only router survives entry-point filtering against
the recognized set containing just the string web. -/
def cfgC6 : Configuration :=
  ⟨[( "r1", ⟨[ "web" ], "s1", []⟩)], [( "s1", "payload-b")], []⟩

/-- A fragment with a middleware reference containing two occurrences of
the generic HTTP provider tag. -/
def cfgDouble : Configuration :=
  ⟨[( "r1", ⟨[ "web" ], "s1", [ "auth@http@http" ]⟩)], [( "s1", "p1")], []⟩

/-- First merge-sample fragment: defines service svc1. -/
def cfgM1 : Configuration :=
  ⟨[( "r1", ⟨[ "web" ], "svc1", [ "mw1" ]⟩)], [( "svc1", "pA")], [( "mw1", "qA")]⟩

/-- Second merge-sample fragment: also defines service svc1, with
different content. -/
def cfgM2 : Configuration :=
  ⟨[( "r2", ⟨[ "web" ], "svc1", []⟩)], [( "svc1", "pB")], []⟩

/-- A provider as `New` returns it: `cancel` is still nil because
`Provide` has not run. -/
def pFresh : ProviderA :=
  ⟨15000000000, 10000000000, [( "server1", "10.0.1.2")], [ "web" ], none⟩

/-! ## Basic association-list lemmas -/

theorem findKey_append (a b : List (String × α)) (n : String) :
    findKey (a ++ b) n = (findKey a n).or (findKey b n) := by
  induction a with
  | nil => simp [findKey]
  | cons kv rest ih =>
      by_cases h : kv.1 = n <;> simp [findKey, h, ih]

theorem findKey_eq_none_iff (l : List (String × α)) (n : String) :
    findKey l n = none ↔ n ∉ keysOf l := by
  induction l with
  | nil => simp [findKey, keysOf]
  | cons kv rest ih =>
      by_cases h : kv.1 = n <;> simp [findKey, keysOf, h, ih] <;> simp [keysOf] at ih <;> tauto

theorem findKey_delKey (l : List (String × α)) (k n : String) :
    findKey (delKey l k) n = if n = k then none else findKey l n := by
  induction l with
  | nil => simp [delKey, findKey]
  | cons kv rest ih =>
      by_cases h1 : kv.1 = k
      · rw [show delKey (kv :: rest) k = delKey rest k by simp [delKey, h1], ih]
        by_cases h2 : n = k
        · simp [h2]
        · have hkv : ¬ kv.1 = n := fun hh => h2 (by rw [← hh, h1])
          simp [findKey, h2, hkv]
      · rw [show delKey (kv :: rest) k = kv :: delKey rest k by simp [delKey, h1]]
        by_cases h2 : kv.1 = n
        · have hnk : ¬ n = k := fun hh => h1 (by rw [h2, hh])
          simp [findKey, h2, hnk]
        · simp [findKey, h2, ih]

theorem findKey_setAssoc (l : List (String × Bool)) (k : String) (b : Bool) (n : String) :
    findKey (setAssoc l k b) n = if n = k then some b else findKey l n := by
  induction l with
  | nil =>
      by_cases h : n = k
      · simp [setAssoc, findKey, h]
      · have hkn : ¬ k = n := fun hh => h hh.symm
        simp [setAssoc, findKey, h, hkn]
  | cons kv rest ih =>
      by_cases h1 : kv.1 = k
      · rw [show setAssoc (kv :: rest) k b = (kv.1, b) :: rest by simp [setAssoc, h1]]
        by_cases h2 : n = k
        · simp [findKey, h1, h2]
        · have hkv : ¬ kv.1 = n := fun hh => h2 (by rw [← hh, h1])
          simp [findKey, h2, hkv]
      · rw [show setAssoc (kv :: rest) k b = kv :: setAssoc rest k b by simp [setAssoc, h1]]
        by_cases h2 : kv.1 = n
        · have hnk : ¬ n = k := fun hh => h1 (by rw [h2, hh])
          simp [findKey, h2, hnk]
        · simp [findKey, h2, ih]

theorem findKey_markTrueIfAbsent (l : List (String × Bool)) (k n : String) :
    findKey (markTrueIfAbsent l k) n =
      (findKey l n).or (if n = k then some true else none) := by
  unfold markTrueIfAbsent
  by_cases hk : (findKey l k).isSome
  · simp only [hk, if_true]
    by_cases hn : n = k
    · subst hn
      rcases h : findKey l n with _ | v
      · rw [h] at hk
        simp at hk
      · simp
    · rcases h : findKey l n with _ | v <;> simp [hn]
  · rw [if_neg hk, findKey_append]
    by_cases hn : n = k
    · simp [findKey, hn]
    · have hkn : ¬ k = n := fun hh => hn hh.symm
      simp [findKey, hn, hkn]

/-! ## Claim C3: Policy B rewriting and its idempotence defect -/

/-- C3 (code evaluated at the failing input): the rewrite maps `auth@http`
to `auth@plugin-multi-http-provider` as specified, but it is not
idempotent: a reference carrying two occurrences of the generic tag is
rewritten again when the transform is re-applied to its own output, so
re-applying Policy B to a fragment does not always leave it unchanged. -/
theorem transformB_double_rewrite :
    rewriteMw "auth@http" = "auth@plugin-multi-http-provider" ∧
    rewriteMw "auth@http@http" = "auth@plugin-multi-http-provider@http" ∧
    rewriteMw (rewriteMw "auth@http@http") ≠ rewriteMw "auth@http@http" ∧
    transformB (transformB cfgDouble) ≠ transformB cfgDouble := by
  refine ⟨by decide, by decide, by decide, by decide⟩

/-! ## Claim C6: the status code is never consulted -/

/-- C6 (amended): the fetch path skips an endpoint exactly on transport
error, unreadable body, or undecodable body; the HTTP status code is
never examined, so two responses differing only in status code
contribute identically, and in particular a non-2xx response whose body
decodes to a document with a present HTTP section still contributes its
fragment. -/
theorem fetch_ignores_status (s1 s2 : Nat) (b : Body) (http : Option Configuration) :
    readAndDecode (.response s1 b) = readAndDecode (.response s2 b) ∧
    readAndDecode .transportError = none ∧
    readAndDecode (.response s1 .unreadable) = none ∧
    readAndDecode (.response s1 .undecodable) = none ∧
    readAndDecode (.response s1 (.decodable http)) = some http := by
  cases b <;> simp [readAndDecode]

/-- C6 (counterexample): an endpoint answering with HTTP status 500 and a
decodable body is not skipped; its fragment is decoded, transformed and
merged — the cycle emits exactly that fragment, with its service
present, not the empty configuration. -/
theorem non2xx_response_included :
    readAndDecode (.response 500 (.decodable (some cfgC6))) = some (some cfgC6) ∧
    cycleA [ "web" ] [( "n1", .response 500 (.decodable (some cfgC6)))] = .ok cfgC6 ∧
    findKey cfgC6.services "s1" = some "payload-b" ∧
    cycleA [ "web" ] [( "n1", .response 500 (.decodable (some cfgC6)))]
      ≠ .ok Configuration.empty := by
  refine ⟨by decide, by decide, by decide, by decide⟩

/-! ## Claim C7: Init validation -/

/-- C7: `Init` succeeds exactly when the poll interval and poll timeout are
positive, at least one endpoint is configured, and, in the Policy A
variant only, at least one entry point is recognized; otherwise it
returns a validation error.  The Policy B variant has no entry-point
requirement. -/
theorem init_validation (pA : ProviderA) (pB : ProviderB) :
    (pA.Init = .ok () ↔
      0 < pA.pollInterval ∧ 0 < pA.pollTimeout ∧ pA.endpoints ≠ [] ∧ pA.entrypoints ≠ []) ∧
    (pB.Init = .ok () ↔
      0 < pB.pollInterval ∧ 0 < pB.pollTimeout ∧ pB.endpoints ≠ []) := by
  constructor
  · unfold ProviderA.Init
    split_ifs with h1 h2 h3 h4 <;>
      simp_all [List.length_eq_zero, ← List.length_pos_iff_ne_nil] <;> omega
  · unfold ProviderB.Init
    split_ifs with h1 h2 h3 <;>
      simp_all [List.length_eq_zero, ← List.length_pos_iff_ne_nil] <;> omega

/-! ## Claim C8: Stop safety -/

/-- C8 (counterexample): on a provider on which `Provide` has never run,
the `cancel` field is still nil, and `Stop` calls the nil function,
which panics — refuting the claim that `Stop` never panics in any
state. -/
theorem stop_before_provide_panics :
    pFresh.cancel = none ∧ pFresh.Stop = .error .nilFunctionCall := by
  exact ⟨rfl, rfl⟩

/-- C8 (amended): once `Provide` has run, `Stop` returns ok without
panicking, leaves the provider state unchanged, and calling `Stop`
again after a previous `Stop` again returns ok — the second call is a
no-op on an already-cancelled context. -/
theorem stop_after_provide_safe (p : ProviderA) :
    p.provide.Stop = .ok ((), p.provide) ∧
    (p.provide.Stop.bind (fun r => r.2.Stop)) = .ok ((), p.provide) := by
  constructor <;> simp [ProviderA.provide, ProviderA.Stop, Except.bind]

/-! ## Claim C9: serialization of the emission payload -/

/-- C9: `MarshalJSON` returns the JSON bytes of the configuration without
error whenever the configuration reference is non-nil, and an explicit
error — not empty bytes — whenever it is nil. -/
theorem marshalJSON_present_iff (c : Configuration) :
    ConfigMarshaler.MarshalJSON (some c) = .ok (encodeConfiguration c) ∧
    ConfigMarshaler.MarshalJSON none = .error "unable to serialize configuration" := by
  exact ⟨rfl, rfl⟩

/-! ## Merge lemmas -/

theorem findKey_fold_insertAbsent (l : List (String × α)) (acc : List (String × α)) (n : String) :
    findKey (l.foldl insertAbsent acc) n = (findKey acc n).or (findKey l n) := by
  induction l generalizing acc with
  | nil => simp [findKey]
  | cons kv rest ih =>
      rw [List.foldl_cons, ih]
      unfold insertAbsent
      by_cases hp : (findKey acc kv.1).isSome
      · rw [if_pos hp]
        by_cases hn : kv.1 = n
        · rcases h : findKey acc n with _ | v
          · rw [hn] at hp
            rw [h] at hp
            simp at hp
          · simp [findKey, hn]
        · simp [findKey, hn]
      · rw [if_neg hp, findKey_append, Option.or_assoc]
        by_cases hn : kv.1 = n <;> simp [findKey, hn]

theorem fold_merge_routers (cs : List Configuration) (acc : Configuration) :
    (cs.foldl mergeFragment acc).routers
      = cs.foldl (fun a c => c.routers.foldl insertAbsent a) acc.routers := by
  induction cs generalizing acc with
  | nil => rfl
  | cons c rest ih => simp [List.foldl_cons, ih, mergeFragment]

theorem fold_merge_services (cs : List Configuration) (acc : Configuration) :
    (cs.foldl mergeFragment acc).services
      = cs.foldl (fun a c => c.services.foldl insertAbsent a) acc.services := by
  induction cs generalizing acc with
  | nil => rfl
  | cons c rest ih => simp [List.foldl_cons, ih, mergeFragment]

theorem fold_merge_middlewares (cs : List Configuration) (acc : Configuration) :
    (cs.foldl mergeFragment acc).middlewares
      = cs.foldl (fun a c => c.middlewares.foldl insertAbsent a) acc.middlewares := by
  induction cs generalizing acc with
  | nil => rfl
  | cons c rest ih => simp [List.foldl_cons, ih, mergeFragment]

theorem firstWriterDef_cons (f : Configuration → List (String × α)) (c : Configuration)
    (rest : List Configuration) (n : String) :
    firstWriterDef f (c :: rest) n
      = match findKey (f c) n with
        | some v => some v
        | none => firstWriterDef f rest n := rfl

theorem findKey_foldl_lists (f : Configuration → List (String × α)) (cs : List Configuration)
    (a : List (String × α)) (n : String) :
    findKey (cs.foldl (fun acc c => (f c).foldl insertAbsent acc) a) n
      = (findKey a n).or (firstWriterDef f cs n) := by
  induction cs generalizing a with
  | nil => simp [firstWriterDef]
  | cons c rest ih =>
      rw [List.foldl_cons, ih, findKey_fold_insertAbsent, Option.or_assoc, firstWriterDef_cons]
      congr 1
      cases findKey (f c) n <;> rfl

theorem nodupKeys_insertAbsent (acc : List (String × α)) (kv : String × α)
    (h : nodupKeys acc) : nodupKeys (insertAbsent acc kv) := by
  unfold insertAbsent
  by_cases hp : (findKey acc kv.1).isSome
  · simpa [hp] using h
  · rw [if_neg hp]
    have hk : kv.1 ∉ keysOf acc := by
      rw [← findKey_eq_none_iff]
      rcases hf : findKey acc kv.1 with _ | v
      · rfl
      · rw [hf] at hp
        simp at hp
    unfold nodupKeys keysOf at *
    rw [List.map_append]
    rw [List.nodup_append]
    refine ⟨h, by simp, by simpa using hk⟩

theorem nodupKeys_fold_insertAbsent (l : List (String × α)) (acc : List (String × α))
    (h : nodupKeys acc) : nodupKeys (l.foldl insertAbsent acc) := by
  induction l generalizing acc with
  | nil => exact h
  | cons kv rest ih => exact ih (insertAbsent acc kv) (nodupKeys_insertAbsent acc kv h)

theorem nodupKeys_nested (f : Configuration → List (String × α)) (cs : List Configuration)
    (a : List (String × α)) (h : nodupKeys a) :
    nodupKeys (cs.foldl (fun acc c => (f c).foldl insertAbsent acc) a) := by
  induction cs generalizing a with
  | nil => exact h
  | cons c rest ih => exact ih _ (nodupKeys_fold_insertAbsent (f c) a h)

theorem mem_fold_insertAbsent (l : List (String × α)) (acc : List (String × α))
    (x : String × α) (h : x ∈ l.foldl insertAbsent acc) : x ∈ acc ∨ x ∈ l := by
  induction l generalizing acc with
  | nil => exact Or.inl h
  | cons kv rest ih =>
      rcases ih (insertAbsent acc kv) h with h1 | h1
      · unfold insertAbsent at h1
        by_cases hp : (findKey acc kv.1).isSome
        · rw [if_pos hp] at h1
          exact Or.inl h1
        · rw [if_neg hp] at h1
          rcases List.mem_append.mp h1 with h2 | h2
          · exact Or.inl h2
          · simp at h2
            exact Or.inr (by simp [h2])
      · exact Or.inr (List.mem_cons_of_mem kv h1)

theorem mem_nested (f : Configuration → List (String × α)) (cs : List Configuration)
    (a : List (String × α)) (x : String × α)
    (h : x ∈ cs.foldl (fun acc c => (f c).foldl insertAbsent acc) a) :
    x ∈ a ∨ ∃ c ∈ cs, x ∈ f c := by
  induction cs generalizing a with
  | nil => exact Or.inl h
  | cons c rest ih =>
      rcases ih _ h with h1 | h1
      · rcases mem_fold_insertAbsent (f c) a x h1 with h2 | h2
        · exact Or.inl h2
        · exact Or.inr ⟨c, by simp, h2⟩
      · rcases h1 with ⟨c0, hc0, hx⟩
        exact Or.inr ⟨c0, List.mem_cons_of_mem c hc0, hx⟩

theorem firstWriterDef_isSome (f : Configuration → List (String × α)) (cs : List Configuration)
    (n : String) (h : ∃ c ∈ cs, (findKey (f c) n).isSome) :
    (firstWriterDef f cs n).isSome := by
  induction cs with
  | nil => simp at h
  | cons c rest ih =>
      unfold firstWriterDef
      rcases hf : findKey (f c) n with _ | v
      · rcases h with ⟨c0, hc0, hs⟩
        rcases List.mem_cons.mp hc0 with h1 | h1
        · rw [h1, hf] at hs
          simp at hs
        · exact ih ⟨c0, h1, hs⟩
      · simp

/-! ## Claim C4: first-writer-wins merge -/

/-- C4: for every ordered sequence of fragments, the merged configuration
binds each router, service and middleware name exactly once (its key
lists are duplicate-free), namely to the definition from the earliest
fragment in the sequence that defines that name; later same-named
entities are silently dropped.  `mergeConfig` is a pure function of the
fragment sequence, so the result is deterministic for a fixed input
order. -/
theorem mergeConfig_first_writer_wins (cs : List Configuration) (n : String) :
    findKey (mergeConfig cs).routers n = firstWriterDef (fun c => c.routers) cs n ∧
    findKey (mergeConfig cs).services n = firstWriterDef (fun c => c.services) cs n ∧
    findKey (mergeConfig cs).middlewares n = firstWriterDef (fun c => c.middlewares) cs n ∧
    nodupKeys (mergeConfig cs).routers ∧
    nodupKeys (mergeConfig cs).services ∧
    nodupKeys (mergeConfig cs).middlewares := by
  unfold mergeConfig
  refine ⟨?_, ?_, ?_, ?_, ?_, ?_⟩
  · rw [fold_merge_routers, findKey_foldl_lists]
    simp [Configuration.empty, findKey]
  · rw [fold_merge_services, findKey_foldl_lists]
    simp [Configuration.empty, findKey]
  · rw [fold_merge_middlewares, findKey_foldl_lists]
    simp [Configuration.empty, findKey]
  · rw [fold_merge_routers]
    exact nodupKeys_nested _ cs _ (by simp [Configuration.empty, nodupKeys, keysOf])
  · rw [fold_merge_services]
    exact nodupKeys_nested _ cs _ (by simp [Configuration.empty, nodupKeys, keysOf])
  · rw [fold_merge_middlewares]
    exact nodupKeys_nested _ cs _ (by simp [Configuration.empty, nodupKeys, keysOf])

/-! ## Claim C10: merge preserves name-resolvability -/

/-- C10: if every fragment of the sequence is internally resolvable, then
every router of the merged configuration has its service reference and
all its middleware references bound in the merged services and
middlewares maps (possibly to an earlier fragment's definition). -/
theorem merge_preserves_resolvability (cs : List Configuration)
    (h : ∀ c ∈ cs, Resolvable c) : Resolvable (mergeConfig cs) := by
  intro kv hkv
  have hk2 : kv ∈ cs.foldl (fun acc c => c.routers.foldl insertAbsent acc) [] := by
    have hr := fold_merge_routers cs Configuration.empty
    rw [show Configuration.empty.routers = [] from rfl] at hr
    rw [mergeConfig] at hkv
    rw [hr] at hkv
    exact hkv
  rcases mem_nested (fun c => c.routers) cs [] kv hk2 with h1 | h1
  · simp at h1
  rcases h1 with ⟨c, hc, hkvc⟩
  have hres := h c hc kv hkvc
  constructor
  · rw [show (mergeConfig cs).services
        = cs.foldl (fun a c => c.services.foldl insertAbsent a) [] from
        fold_merge_services cs Configuration.empty]
    rw [findKey_foldl_lists]
    have hs := firstWriterDef_isSome (fun c => c.services) cs kv.2.service ⟨c, hc, hres.1⟩
    rcases ho : firstWriterDef (fun c => c.services) cs kv.2.service with _ | v
    · rw [ho] at hs
      simp at hs
    · simp [findKey]
  · intro m hm
    rw [show (mergeConfig cs).middlewares
        = cs.foldl (fun a c => c.middlewares.foldl insertAbsent a) [] from
        fold_merge_middlewares cs Configuration.empty]
    rw [findKey_foldl_lists]
    have hs := firstWriterDef_isSome (fun c => c.middlewares) cs m ⟨c, hc, hres.2 m hm⟩
    rcases ho : firstWriterDef (fun c => c.middlewares) cs m with _ | v
    · rw [ho] at hs
      simp at hs
    · simp [findKey]

/-- C10 (witness): two concrete resolvable fragments colliding on the name
svc1 merge into a configuration whose routers all resolve. -/
theorem merge_preserves_resolvability_witness :
    Resolvable (mergeConfig [cfgM1, cfgM2]) :=
  merge_preserves_resolvability [cfgM1, cfgM2] (by decide)

/-! ## Claim C5: per-endpoint failure tolerance of one cycle -/

/-- C5 (counterexample): a body that `json.Unmarshal` accepts but whose
document carries no HTTP section — an empty JSON object or `null` —
makes the very next step, the `config.HTTP.Routers` range, dereference
a nil pointer: the cycle panics and emits nothing, in both variants,
even when another endpoint of the same cycle returned a perfectly good
fragment.  This refutes the claim that every outcome assignment lets
the cycle complete and emit. -/
theorem nil_http_body_panics :
    readAndDecode (.response 200 (.decodable none)) = some none ∧
    cycleA [ "web" ] [( "n1", .response 200 (.decodable none))]
      = .error .nilPointerDereference ∧
    cycleB [( "n1", .response 200 (.decodable none))] = .error .nilPointerDereference ∧
    cycleA [ "web" ] [( "good", .response 200 (.decodable (some cfgC6))),
        ( "bad", .response 200 (.decodable none))]
      = .error .nilPointerDereference := by
  refine ⟨by decide, by decide, by decide, by decide⟩

theorem collect_aux (t : Configuration → Configuration)
    (fetches : List (String × FetchResult)) (acc : List Configuration)
    (h : ∀ nr ∈ fetches, readAndDecode nr.2 ≠ some none) :
    collectConfigs t fetches acc
      = .ok (acc ++ fetches.filterMap (fun nr => ((readAndDecode nr.2).join).map t)) := by
  induction fetches generalizing acc with
  | nil => simp [collectConfigs]
  | cons nr rest ih =>
      rcases hr : readAndDecode nr.2 with _ | h2
      · rw [show collectConfigs t (nr :: rest) acc = collectConfigs t rest acc by
            simp [collectConfigs, hr]]
        rw [ih acc (fun x hx => h x (List.mem_cons_of_mem nr hx))]
        simp [List.filterMap_cons, hr]
      · rcases h2 with _ | cfg
        · exact absurd hr (h nr (List.mem_cons_self nr rest))
        · rw [show collectConfigs t (nr :: rest) acc
              = collectConfigs t rest (acc ++ [t cfg]) by simp [collectConfigs, hr]]
          rw [ih (acc ++ [t cfg]) (fun x hx => h x (List.mem_cons_of_mem nr hx))]
          simp [List.filterMap_cons, hr]

/-- C5 (amended): as long as no endpoint's body decodes to a document
with a nil HTTP section, the cycle completes without panicking and
emits exactly one configuration, the merge of the transformed fragments
of the successful endpoints only, in both pipeline variants; when no
endpoint succeeds, the emitted configuration is the empty one (all
three collections present but empty), not an absent one.  The
counterexample shows the nil-HTTP proviso cannot be dropped. -/
theorem cycle_merges_successes (eps : List String) (fetches : List (String × FetchResult))
    (h : ∀ nr ∈ fetches, readAndDecode nr.2 ≠ some none) :
    cycleA eps fetches
      = .ok (mergeConfig (fetches.filterMap
          (fun nr => ((readAndDecode nr.2).join).map (transformA eps)))) ∧
    cycleB fetches
      = .ok (mergeConfig (fetches.filterMap
          (fun nr => ((readAndDecode nr.2).join).map transformB))) ∧
    ((∀ nr ∈ fetches, readAndDecode nr.2 = none) →
      cycleA eps fetches = .ok Configuration.empty ∧
      cycleB fetches = .ok Configuration.empty) := by
  refine ⟨?_, ?_, ?_⟩
  · unfold cycleA
    rw [collect_aux (transformA eps) fetches [] h]
    simp
  · unfold cycleB
    rw [collect_aux transformB fetches [] h]
    simp
  · intro hall
    have hfmA : fetches.filterMap
        (fun nr => ((readAndDecode nr.2).join).map (transformA eps)) = [] := by
      rw [List.filterMap_eq_nil_iff]
      intro nr hnr
      rw [hall nr hnr]
      rfl
    have hfmB : fetches.filterMap
        (fun nr => ((readAndDecode nr.2).join).map transformB) = [] := by
      rw [List.filterMap_eq_nil_iff]
      intro nr hnr
      rw [hall nr hnr]
      rfl
    constructor
    · unfold cycleA
      rw [collect_aux (transformA eps) fetches [] h, hfmA]
      rfl
    · unfold cycleB
      rw [collect_aux transformB fetches [] h, hfmB]
      rfl

/-- C5 (witness): a cycle whose only endpoint suffers a connection failure
still completes and emits the empty configuration. -/
theorem cycle_merges_successes_witness :
    cycleA [ "web" ] [( "n1", FetchResult.transportError)] = .ok Configuration.empty ∧
    cycleB [( "n1", FetchResult.transportError)] = .ok Configuration.empty :=
  (cycle_merges_successes [ "web" ] [( "n1", FetchResult.transportError)]
    (by decide)).2.2 (by decide)

/-! ## Policy A scan lemmas -/

theorem scan_routers (eps : List String) (rs : List (String × Router)) (st : ScanState) :
    (rs.foldl (processRouter eps) st).routers
      = st.routers ++ rs.map (fun kv => (kv.1, { kv.2 with entryPoints := interEps eps kv.2 })) := by
  induction rs generalizing st with
  | nil => simp
  | cons kv rest ih =>
      rw [List.foldl_cons, ih]
      simp [processRouter]

theorem scan_toDelete (eps : List String) (rs : List (String × Router)) (st : ScanState) :
    (rs.foldl (processRouter eps) st).toDelete
      = st.toDelete ++ (rs.filter (fun kv => (interEps eps kv.2).isEmpty)).map
          (fun kv => (kv.1, kv.2.service)) := by
  induction rs generalizing st with
  | nil => simp
  | cons kv rest ih =>
      rw [List.foldl_cons, ih]
      by_cases he : (interEps eps kv.2).isEmpty <;>
        simp [processRouter, he, List.filter_cons]

theorem findKey_markLoop (ms : List String) (acc : List (String × Bool)) (n : String) :
    findKey (ms.foldl (fun a m => markTrueIfAbsent a m) acc) n
      = (findKey acc n).or (if n ∈ ms then some true else none) := by
  induction ms generalizing acc with
  | nil => simp
  | cons m rest ih =>
      rw [List.foldl_cons, ih, findKey_markTrueIfAbsent, Option.or_assoc]
      congr 1
      by_cases hm : n = m <;> by_cases hr : n ∈ rest <;> simp [hm, hr]

theorem findKey_setFalseLoop (ms : List String) (acc : List (String × Bool)) (n : String) :
    findKey (ms.foldl (fun a m => setAssoc a m false) acc) n
      = if n ∈ ms then some false else findKey acc n := by
  induction ms generalizing acc with
  | nil => simp
  | cons m rest ih =>
      rw [List.foldl_cons, ih, findKey_setAssoc]
      by_cases hm : n = m <;> by_cases hr : n ∈ rest <;> simp [hm, hr]

theorem findKey_processRouter_mw (eps : List String) (st : ScanState) (kv : String × Router)
    (n : String) :
    findKey (processRouter eps st kv).toDeleteMw n
      = if interEps eps kv.2 ≠ [] ∧ n ∈ kv.2.middlewares then some false
        else (findKey st.toDeleteMw n).or (if n ∈ kv.2.middlewares then some true else none) := by
  unfold processRouter
  by_cases he : (interEps eps kv.2).isEmpty
  · have hne : ¬ (interEps eps kv.2 ≠ [] ∧ n ∈ kv.2.middlewares) := by
      rw [List.isEmpty_iff] at he
      simp [he]
    simp only [he, if_true, if_neg hne]
    exact findKey_markLoop kv.2.middlewares st.toDeleteMw n
  · have he2 : (interEps eps kv.2).isEmpty = false := by simpa using he
    simp only [he2, Bool.false_eq_true, if_false]
    rw [findKey_setFalseLoop]
    have hne : interEps eps kv.2 ≠ [] := by
      intro hh
      rw [hh] at he2
      simp at he2
    by_cases hn : n ∈ kv.2.middlewares
    · simp [hn, hne]
    · rw [if_neg hn, if_neg (by simp [hn]), findKey_markLoop, if_neg hn]

theorem mwVerdict_nil : ∀ l0 : Option Bool, mwVerdict l0 false false = l0 := by decide

theorem mwVerdict_step : ∀ (l0 : Option Bool) (refs surv anyR survR : Bool),
    mwVerdict (if surv && refs then some false
               else l0.or (if refs then some true else none)) anyR survR
      = mwVerdict l0 (refs || anyR) ((surv && refs) || survR) := by decide

theorem refB_cons (kv : String × Router) (rest : List (String × Router)) (n : String) :
    refB (kv :: rest) n = (decide (n ∈ kv.2.middlewares) || refB rest n) := by
  simp [refB, List.any_cons]

theorem survB_cons (eps : List String) (kv : String × Router) (rest : List (String × Router))
    (n : String) :
    survB eps (kv :: rest) n
      = ((decide (interEps eps kv.2 ≠ []) && decide (n ∈ kv.2.middlewares)) || survB eps rest n) := by
  simp [survB, List.any_cons]

theorem findKey_scan_mw (eps : List String) (rs : List (String × Router)) (st : ScanState)
    (n : String) :
    findKey ((rs.foldl (processRouter eps) st).toDeleteMw) n
      = mwVerdict (findKey st.toDeleteMw n) (refB rs n) (survB eps rs n) := by
  induction rs generalizing st with
  | nil =>
      rw [show refB [] n = false from rfl, show survB eps [] n = false from rfl, mwVerdict_nil]
      rfl
  | cons kv rest ih =>
      rw [List.foldl_cons, ih, findKey_processRouter_mw, refB_cons, survB_cons]
      by_cases hq : n ∈ kv.2.middlewares <;> by_cases hp : interEps eps kv.2 ≠ []
      · have := mwVerdict_step (findKey st.toDeleteMw n) true true (refB rest n) (survB eps rest n)
        simpa [hq, hp] using this
      · have := mwVerdict_step (findKey st.toDeleteMw n) true false (refB rest n) (survB eps rest n)
        simpa [hq, hp] using this
      · have := mwVerdict_step (findKey st.toDeleteMw n) false true (refB rest n) (survB eps rest n)
        simpa [hq, hp] using this
      · have := mwVerdict_step (findKey st.toDeleteMw n) false false (refB rest n) (survB eps rest n)
        simpa [hq, hp] using this

theorem markTrueIfAbsent_eq_insertAbsent (l : List (String × Bool)) (k : String) :
    markTrueIfAbsent l k = insertAbsent l (k, true) := rfl

theorem mem_keysOf_setAssoc (l : List (String × Bool)) (k : String) (b : Bool) (m : String) :
    m ∈ keysOf (setAssoc l k b) ↔ m ∈ keysOf l ∨ m = k := by
  induction l with
  | nil => simp [setAssoc, keysOf]
  | cons kv rest ih =>
      by_cases h1 : kv.1 = k
      · rw [show setAssoc (kv :: rest) k b = (kv.1, b) :: rest by simp [setAssoc, h1]]
        simp only [keysOf, List.map_cons, List.mem_cons]
        constructor
        · intro h
          rcases h with h | h
          · exact Or.inl (Or.inl h)
          · exact Or.inl (Or.inr h)
        · intro h
          rcases h with (h | h) | h
          · exact Or.inl h
          · exact Or.inr h
          · exact Or.inl (h.trans h1.symm)
      · rw [show setAssoc (kv :: rest) k b = kv :: setAssoc rest k b by simp [setAssoc, h1]]
        simp only [keysOf, List.map_cons, List.mem_cons] at *
        rw [ih]
        tauto

theorem nodupKeys_setAssoc (l : List (String × Bool)) (k : String) (b : Bool)
    (h : nodupKeys l) : nodupKeys (setAssoc l k b) := by
  induction l with
  | nil => simp [setAssoc, nodupKeys, keysOf]
  | cons kv rest ih =>
      unfold nodupKeys keysOf at h
      rw [List.map_cons, List.nodup_cons] at h
      by_cases h1 : kv.1 = k
      · rw [show setAssoc (kv :: rest) k b = (kv.1, b) :: rest by simp [setAssoc, h1]]
        unfold nodupKeys keysOf
        rw [List.map_cons, List.nodup_cons]
        exact ⟨by simpa [keysOf] using h.1, h.2⟩
      · rw [show setAssoc (kv :: rest) k b = kv :: setAssoc rest k b by simp [setAssoc, h1]]
        unfold nodupKeys keysOf
        rw [List.map_cons, List.nodup_cons]
        constructor
        · intro hmem
          rcases (mem_keysOf_setAssoc rest k b kv.1).mp (by simpa [keysOf] using hmem) with h2 | h2
          · exact h.1 (by simpa [keysOf] using h2)
          · exact h1 h2
        · exact ih h.2

theorem nodupKeys_markLoop (ms : List String) (acc : List (String × Bool))
    (h : nodupKeys acc) : nodupKeys (ms.foldl (fun a m => markTrueIfAbsent a m) acc) := by
  induction ms generalizing acc with
  | nil => exact h
  | cons m rest ih =>
      rw [List.foldl_cons, markTrueIfAbsent_eq_insertAbsent]
      exact ih _ (nodupKeys_insertAbsent acc (m, true) h)

theorem nodupKeys_setFalseLoop (ms : List String) (acc : List (String × Bool))
    (h : nodupKeys acc) : nodupKeys (ms.foldl (fun a m => setAssoc a m false) acc) := by
  induction ms generalizing acc with
  | nil => exact h
  | cons m rest ih =>
      rw [List.foldl_cons]
      exact ih _ (nodupKeys_setAssoc acc m false h)

theorem nodupKeys_scan_mw (eps : List String) (rs : List (String × Router)) (st : ScanState)
    (h : nodupKeys st.toDeleteMw) :
    nodupKeys ((rs.foldl (processRouter eps) st).toDeleteMw) := by
  induction rs generalizing st with
  | nil => exact h
  | cons kv rest ih =>
      rw [List.foldl_cons]
      refine ih (processRouter eps st kv) ?_
      unfold processRouter
      by_cases he : (interEps eps kv.2).isEmpty
      · simpa [he] using nodupKeys_markLoop kv.2.middlewares st.toDeleteMw h
      · have he2 : (interEps eps kv.2).isEmpty = false := by simpa using he
        simp only [he2, Bool.false_eq_true, if_false]
        exact nodupKeys_setFalseLoop kv.2.middlewares _
          (nodupKeys_markLoop kv.2.middlewares st.toDeleteMw h)

theorem findKey_delFoldFst (td : List (String × String)) (rs : List (String × α)) (n : String) :
    findKey (td.foldl (fun a kv => delKey a kv.1) rs) n
      = if td.any (fun kv => decide (kv.1 = n)) then none else findKey rs n := by
  induction td generalizing rs with
  | nil => simp
  | cons kv rest ih =>
      rw [List.foldl_cons, ih, findKey_delKey]
      by_cases h1 : kv.1 = n
      · subst h1
        simp [List.any_cons]
      · have h1s : ¬ n = kv.1 := fun hh => h1 hh.symm
        by_cases h2 : rest.any (fun kv => decide (kv.1 = n)) <;>
          simp [List.any_cons, h1, h1s, h2]

theorem findKey_delFoldSnd (td : List (String × String)) (ss : List (String × α)) (n : String) :
    findKey (td.foldl (fun a kv => delKey a kv.2) ss) n
      = if td.any (fun kv => decide (kv.2 = n)) then none else findKey ss n := by
  induction td generalizing ss with
  | nil => simp
  | cons kv rest ih =>
      rw [List.foldl_cons, ih, findKey_delKey]
      by_cases h1 : kv.2 = n
      · subst h1
        simp [List.any_cons]
      · have h1s : ¬ n = kv.2 := fun hh => h1 hh.symm
        by_cases h2 : rest.any (fun kv => decide (kv.2 = n)) <;>
          simp [List.any_cons, h1, h1s, h2]

theorem findKey_delFoldIf (tdm : List (String × Bool)) (ms : List (String × α)) (n : String)
    (h : nodupKeys tdm) :
    findKey (tdm.foldl (fun a kv => if kv.2 then delKey a kv.1 else a) ms) n
      = if findKey tdm n = some true then none else findKey ms n := by
  induction tdm generalizing ms with
  | nil => simp [findKey]
  | cons kv rest ih =>
      unfold nodupKeys keysOf at h
      rw [List.map_cons, List.nodup_cons] at h
      have hrest : nodupKeys rest := h.2
      rw [List.foldl_cons]
      by_cases hn : kv.1 = n
      · have hnone : findKey rest n = none := by
          rw [findKey_eq_none_iff]
          intro hmem
          exact h.1 (hn ▸ hmem)
        cases hb : kv.2
        · rw [if_neg (by simp), ih ms hrest, hnone]
          simp [findKey, hn, hb]
        · rw [if_pos (by simp), ih (delKey ms kv.1) hrest, hnone, findKey_delKey]
          simp [findKey, hn, hb]
      · cases hb : kv.2
        · rw [if_neg (by simp), ih ms hrest]
          simp [findKey, hn]
        · have hns : ¬ n = kv.1 := fun hh => hn hh.symm
          rw [if_pos (by simp), ih (delKey ms kv.1) hrest, findKey_delKey]
          simp [findKey, hn, hns]

theorem findKey_of_mem_nodup (l : List (String × α)) (k : String) (a : α)
    (h : nodupKeys l) (hm : (k, a) ∈ l) : findKey l k = some a := by
  induction l with
  | nil => simp at hm
  | cons kv rest ih =>
      unfold nodupKeys keysOf at h
      rw [List.map_cons, List.nodup_cons] at h
      rcases List.mem_cons.mp hm with h1 | h1
      · rw [← h1]
        simp [findKey]
      · have hne : ¬ kv.1 = k := by
          intro hh
          refine h.1 ?_
          rw [hh]
          exact List.mem_map.mpr ⟨(k, a), h1, rfl⟩
        rw [show findKey (kv :: rest) k = findKey rest k by simp [findKey, hne]]
        exact ih h.2 h1

/-! ## Claim C2: Policy A middleware retention -/

/-- C2: for every fragment (hence for every processing order of its
routers, since the statement quantifies over the router list) a
middleware referenced by at least one surviving router keeps its binding
in the transformed fragment — including one shared with a deleted
router — while a middleware that is referenced by at least one router
but by no surviving router is removed. -/
theorem transformA_middleware_retention (eps : List String) (cfg : Configuration) (n : String) :
    ((∃ kv ∈ cfg.routers, interEps eps kv.2 ≠ [] ∧ n ∈ kv.2.middlewares) →
      findKey (transformA eps cfg).middlewares n = findKey cfg.middlewares n) ∧
    ((∃ kv ∈ cfg.routers, n ∈ kv.2.middlewares) ∧
        (∀ kv ∈ cfg.routers, interEps eps kv.2 ≠ [] → n ∉ kv.2.middlewares) →
      findKey (transformA eps cfg).middlewares n = none) := by
  have hmw : (transformA eps cfg).middlewares
      = (cfg.routers.foldl (processRouter eps) ⟨[], [], []⟩).toDeleteMw.foldl
          (fun a kv => if kv.2 then delKey a kv.1 else a) cfg.middlewares := rfl
  have hnd : nodupKeys ((cfg.routers.foldl (processRouter eps) ⟨[], [], []⟩).toDeleteMw) :=
    nodupKeys_scan_mw eps cfg.routers ⟨[], [], []⟩ (by simp [nodupKeys, keysOf])
  have hchar := findKey_scan_mw eps cfg.routers ⟨[], [], []⟩ n
  rw [show findKey (ScanState.mk [] [] []).toDeleteMw n = none from rfl] at hchar
  constructor
  · intro hsurv
    have hsB : survB eps cfg.routers n = true := by
      rw [survB, List.any_eq_true]
      rcases hsurv with ⟨kv, hkv, hne, hmem⟩
      exact ⟨kv, hkv, by simp [hne, hmem]⟩
    rw [hmw, findKey_delFoldIf _ _ _ hnd, hchar, hsB]
    simp [mwVerdict]
  · intro ⟨href, hnosurv⟩
    have hrB : refB cfg.routers n = true := by
      rw [refB, List.any_eq_true]
      rcases href with ⟨kv, hkv, hmem⟩
      exact ⟨kv, hkv, by simp [hmem]⟩
    have hsB : survB eps cfg.routers n = false := by
      rw [survB]
      rw [List.any_eq_false]
      intro kv hkv
      by_cases hne : interEps eps kv.2 ≠ []
      · simp [hne, hnosurv kv hkv hne]
      · simp [hne]
    rw [hmw, findKey_delFoldIf _ _ _ hnd, hchar, hrB, hsB]
    simp [mwVerdict]

/-- C2 (witness): in the sample fragment, the middleware shared between
the surviving router r1 and the deleted router r2 keeps its binding,
while the middleware referenced only by the deleted router is removed. -/
theorem transformA_middleware_retention_witness :
    findKey (transformA [ "web" ] cfgA).middlewares "m-shared" = some "q1" ∧
    findKey (transformA [ "web" ] cfgA).middlewares "m-dead" = none := by
  constructor
  · have h := (transformA_middleware_retention [ "web" ] cfgA "m-shared").1 (by decide)
    exact h.trans (by decide)
  · exact (transformA_middleware_retention [ "web" ] cfgA "m-dead").2 ⟨by decide, by decide⟩

theorem keysOf_map_keepKey (l : List (String × α)) (g : String × α → β) :
    keysOf (l.map (fun kv => (kv.1, g kv))) = keysOf l := by
  simp [keysOf, List.map_map]

/-! ## Claim C1: Policy A entry-point filtering -/

/-- C1: in the transformed fragment, a router whose declared entry points
meet the recognized set survives with its entry-point list replaced by
the intersection in declaration order (`interEps` is a filter of the
declared list, so the original order is preserved); a router whose
intersection is empty is removed together with the service it
references. -/
theorem transformA_entrypoint_filtering (eps : List String) (cfg : Configuration)
    (k : String) (r : Router) (hnd : nodupKeys cfg.routers) (hmem : (k, r) ∈ cfg.routers) :
    (interEps eps r ≠ [] →
      findKey (transformA eps cfg).routers k = some { r with entryPoints := interEps eps r }) ∧
    (interEps eps r = [] →
      findKey (transformA eps cfg).routers k = none ∧
      findKey (transformA eps cfg).services r.service = none) := by
  have hrt : (transformA eps cfg).routers
      = (cfg.routers.foldl (processRouter eps) ⟨[], [], []⟩).toDelete.foldl
          (fun a kv => delKey a kv.1)
          (cfg.routers.foldl (processRouter eps) ⟨[], [], []⟩).routers := rfl
  have hsv : (transformA eps cfg).services
      = (cfg.routers.foldl (processRouter eps) ⟨[], [], []⟩).toDelete.foldl
          (fun a kv => delKey a kv.2) cfg.services := rfl
  have htd := scan_toDelete eps cfg.routers ⟨[], [], []⟩
  have hrs := scan_routers eps cfg.routers ⟨[], [], []⟩
  simp only [List.nil_append] at htd hrs
  constructor
  · intro hne
    rw [hrt, htd, hrs, findKey_delFoldFst]
    have hany : ((cfg.routers.filter (fun kv => (interEps eps kv.2).isEmpty)).map
        (fun kv => (kv.1, kv.2.service))).any (fun kv => decide (kv.1 = k)) = false := by
      rw [List.any_eq_false]
      rintro ⟨k0, s0⟩ hk0 hdec
      rcases List.mem_map.mp hk0 with ⟨kr, hkr, heq⟩
      rcases List.mem_filter.mp hkr with ⟨hkrmem, hkrempty⟩
      have hk0k : k0 = k := by simpa using hdec
      have hkr1 : kr.1 = k := by
        rw [← hk0k]
        exact congrArg Prod.fst heq
      have hmem2 : (k, kr.2) ∈ cfg.routers := by
        rw [← hkr1]
        exact hkrmem
      have h1 : findKey cfg.routers k = some r := findKey_of_mem_nodup _ _ _ hnd hmem
      have h2 : findKey cfg.routers k = some kr.2 := findKey_of_mem_nodup _ _ _ hnd hmem2
      have hrr : r = kr.2 := by
        rw [h1] at h2
        exact Option.some.inj h2
      rw [List.isEmpty_iff] at hkrempty
      rw [hrr] at hne
      exact hne hkrempty
    rw [hany]
    have hfind : findKey (cfg.routers.map
        (fun kv => (kv.1, { kv.2 with entryPoints := interEps eps kv.2 }))) k
        = some { r with entryPoints := interEps eps r } := by
      apply findKey_of_mem_nodup
      · unfold nodupKeys
        rw [keysOf_map_keepKey]
        exact hnd
      · exact List.mem_map.mpr ⟨(k, r), hmem, rfl⟩
    simpa using hfind
  · intro hemp
    have hmemtd : (k, r.service) ∈ (cfg.routers.filter
        (fun kv => (interEps eps kv.2).isEmpty)).map (fun kv => (kv.1, kv.2.service)) :=
      List.mem_map.mpr ⟨(k, r), List.mem_filter.mpr ⟨hmem, by simp [hemp]⟩, rfl⟩
    constructor
    · rw [hrt, htd, findKey_delFoldFst]
      have hany : ((cfg.routers.filter (fun kv => (interEps eps kv.2).isEmpty)).map
          (fun kv => (kv.1, kv.2.service))).any (fun kv => decide (kv.1 = k)) = true :=
        List.any_eq_true.mpr ⟨(k, r.service), hmemtd, by simp⟩
      rw [hany]
      simp
    · rw [hsv, htd, findKey_delFoldSnd]
      have hany : ((cfg.routers.filter (fun kv => (interEps eps kv.2).isEmpty)).map
          (fun kv => (kv.1, kv.2.service))).any (fun kv => decide (kv.2 = r.service)) = true :=
        List.any_eq_true.mpr ⟨(k, r.service), hmemtd, by simp⟩
      rw [hany]
      simp

/-- C1 (witness): in the sample fragment, router r1 bound to web and
websecure survives with entry points reduced to web, and router r2
bound only to internal is removed together with its service s2. -/
theorem transformA_entrypoint_filtering_witness :
    findKey (transformA [ "web" ] cfgA).routers "r1"
      = some ⟨[ "web" ], "s1", [ "m-shared", "m-keep" ]⟩ ∧
    findKey (transformA [ "web" ] cfgA).routers "r2" = none ∧
    findKey (transformA [ "web" ] cfgA).services "s2" = none := by
  refine ⟨?_, ?_, ?_⟩
  · have h := (transformA_entrypoint_filtering [ "web" ] cfgA "r1"
      ⟨[ "web", "websecure" ], "s1", [ "m-shared", "m-keep" ]⟩ (by decide) (by decide)).1
      (by decide)
    exact h.trans (by decide)
  · exact ((transformA_entrypoint_filtering [ "web" ] cfgA "r2"
      ⟨[ "internal" ], "s2", [ "m-shared", "m-dead" ]⟩ (by decide) (by decide)).2 (by decide)).1
  · exact ((transformA_entrypoint_filtering [ "web" ] cfgA "r2"
      ⟨[ "internal" ], "s2", [ "m-shared", "m-dead" ]⟩ (by decide) (by decide)).2 (by decide)).2
